import Mathlib

/-
Verification development for the Base-Gas-Estimator-CLI repository.

Shallow embedding of the JavaScript sources:
  * src/utils.js   — network table, validators, formatting helpers;
  * src/price.js   — price fetcher boundary (its outcome is passed in);
  * src/estimator.js — gas estimation (RPC outcomes passed in as values);
  * src/cli.js     — the transfer command dispatcher.

Modelling conventions:
  * JavaScript BigInt amounts (wei) are Nat; no overflow can occur.
  * The display layer of the source goes through IEEE-754 binary64 doubles
    (Number(), parseFloat, toFixed).  The embedding models them exactly
    with integer arithmetic: a conversion rounds the exact rational to 53
    significant bits, ties to even, with the subnormal range below
    2 ^ (-1022) (mantissa scale clamped at 2 ^ (-1074)) and overflow to
    Infinity at 2 ^ 1024 and beyond, as ECMAScript prescribes; toFixed(k)
    rounds the double's exact value half-up to k decimal places, falling
    back to Number::toString (shortest round-tripping significand, in
    exponential notation) at magnitude 1e21 and above.
  * Results of remote calls (fee data, gas estimate, price) are passed to
    the embedded functions as Except values; a JavaScript throw is an
    Except.error carrying the error message and optional error code.
-/

/-- Whitespace characters skipped by JavaScript parseFloat (the common ones;
the claims use none). -/
def isWsChar (c : Char) : Bool :=
  c == ' ' || c == '\t' || c == '\n' || c == '\r'

/-- Hexadecimal digit test, as in the regular expression [a-fA-F0-9]. -/
def isHexChar (c : Char) : Bool :=
  c.isDigit || ('a' ≤ c && c ≤ 'f') || ('A' ≤ c && c ≤ 'F')

/-- Lower-case hexadecimal letter a-f. -/
def isLowerHexLetter (c : Char) : Bool := 'a' ≤ c && c ≤ 'f'

/-- Upper-case hexadecimal letter A-F. -/
def isUpperHexLetter (c : Char) : Bool := 'A' ≤ c && c ≤ 'F'

/-- Numeric value of a run of decimal digit characters (most significant
first), as accumulated by a left-to-right parse. -/
def digitsToNat (l : List Char) : ℕ :=
  l.foldl (fun a c => 10 * a + (c.toNat - 48)) 0

/-- Fuel-driven worker for the decimal digits of a natural number; the fuel
only bounds the recursion depth (one unit per digit suffices). -/
def natDigitsAux : ℕ → ℕ → List Char
  | 0, _ => []
  | fuel + 1, n =>
    if n < 10 then [Nat.digitChar n]
    else natDigitsAux fuel (n / 10) ++ [Nat.digitChar (n % 10)]

/-- Decimal digit characters of a natural number, most significant first;
natDigits 0 = "0", mirroring BigInt.prototype.toString. -/
def natDigits (n : ℕ) : List Char := natDigitsAux (n + 1) n

/-- Decimal rendering of a natural number as a string. -/
def natToString (n : ℕ) : String := String.mk (natDigits n)

/-- Exactly k decimal digit characters of f (most significant first), the
zero-padded fractional block produced by toFixed for f < 10 ^ k. -/
def fracDigits : ℕ → ℕ → List Char
  | 0, _ => []
  | k + 1, f => fracDigits k (f / 10) ++ [Nat.digitChar (f % 10)]

/-- The character string toFixed(K) produces for the non-negative value
m / 10 ^ K (m already rounded to an integer): the integer part in decimal,
then, when K > 0, a dot and exactly K fractional digits. -/
def toFixedOfScaled : ℕ → ℕ → List Char
  | 0, m => natDigits m
  | K + 1, m => natDigits (m / 10 ^ (K + 1)) ++ '.' :: fracDigits (K + 1) (m % 10 ^ (K + 1))

/-- Fuel-driven bit-length worker: number of binary digits of n (0 for 0). -/
def bitLenAux : ℕ → ℕ → ℕ
  | 0, _ => 0
  | fuel + 1, n => if n = 0 then 0 else bitLenAux fuel (n / 2) + 1

/-- Bit length of a natural number; fuel n suffices since the length of a
positive n never exceeds n. -/
def bitLen (n : ℕ) : ℕ := bitLenAux n n

/-- Round N / D (D positive) to the nearest integer, ties to even — the
rounding IEEE-754 applies in every to-nearest conversion. -/
def rhe (N D : ℕ) : ℕ :=
  if 2 * (N % D) < D then N / D
  else if D < 2 * (N % D) then N / D + 1
  else if N / D % 2 = 0 then N / D else N / D + 1

/-- First guess for the binary scale of the 53-bit mantissa window of
N / D: the quotient of the bit lengths puts N / D between 2 ^ (t - 1) and
2 ^ (t + 1), so the mantissa's least significant bit sits near t - 53. -/
def dShift (N D : ℕ) : ℤ := ((bitLen N : ℤ) - (bitLen D : ℤ)) - 53

/-- Floor of N / D scaled by the first-guess window; lands in
[2 ^ 52, 2 ^ 54), deciding whether the window must move up one bit. -/
def dQ0 (N D : ℕ) : ℕ :=
  if 0 ≤ dShift N D then N / (D * 2 ^ (dShift N D).toNat)
  else N * 2 ^ (-dShift N D).toNat / D

/-- Corrected binary scale of the mantissa window of N / D. -/
def dScale1 (N D : ℕ) : ℤ :=
  if dQ0 N D < 2 ^ 53 then dShift N D else dShift N D + 1

/-- Mantissa scale with the IEEE-754 binary64 subnormal clamp: no finite
double has a mantissa bit below 2 ^ (-1074). -/
def dScale (N D : ℕ) : ℤ :=
  if dScale1 N D < -1074 then -1074 else dScale1 N D

/-- The binary64 rounding of the non-negative rational N / D, as a mantissa
and binary exponent: the value is the first component times 2 to the
second, the nearest representable value (ties to even), before the
overflow check. -/
def roundToDouble (N D : ℕ) : ℕ × ℤ :=
  if N = 0 then (0, 0)
  else if 0 ≤ dScale N D then (rhe N (D * 2 ^ (dScale N D).toNat), dScale N D)
  else (rhe (N * 2 ^ (-dScale N D).toNat) D, dScale N D)

/-- The double nearest N / D, or none when the rounding overflows to
Infinity (value 2 ^ 1024 and beyond). -/
def doubleOfNatFrac (N D : ℕ) : Option (ℕ × ℤ) :=
  if 0 ≤ (roundToDouble N D).2 ∧
      2 ^ 1024 ≤ (roundToDouble N D).1 * 2 ^ (roundToDouble N D).2.toNat then none
  else some (roundToDouble N D)

/-- Exact value-level comparison of two mantissa/exponent pairs:
m1 * 2 ^ e1 is at least m2 * 2 ^ e2. -/
def dGe (m1 : ℕ) (e1 : ℤ) (m2 : ℕ) (e2 : ℤ) : Bool :=
  if e2 ≤ e1 then decide (m2 ≤ m1 * 2 ^ (e1 - e2).toNat)
  else decide (m2 * 2 ^ (e2 - e1).toNat ≤ m1)

/-- Comparison of a double value against a natural-number threshold (the
thresholds 1, 1000 and 10 ^ 21 of the source are exactly representable). -/
def dGeNat (m : ℕ) (e : ℤ) (c : ℕ) : Bool := dGe m e c 0

/-- The double value of the numeric literal 0.001 of the source (not
exactly representable; the comparison num >= 0.001 is against this). -/
def dbl001 : ℕ × ℤ := roundToDouble 1 1000

/-- floor(v * 10 ^ k + 1/2) for the double value v = m * 2 ^ e: the scaled
integer toFixed(k) renders, since ECMAScript toFixed picks the integer n
closest to v * 10 ^ k, ties towards the larger n.  Exact: for e ≥ 0 the
product is an integer; for e < 0 the floor is computed on the common
denominator 2 ^ (E + 1). -/
def toFixedScaledD (k m : ℕ) (e : ℤ) : ℕ :=
  if 0 ≤ e then m * 2 ^ e.toNat * 10 ^ k
  else (2 * (m * 10 ^ k) + 2 ^ (-e).toNat) / 2 ^ ((-e).toNat + 1)

/-- The exact value of the double nearest a natural number, as a natural
number when finite (integral for inputs at least 2 ^ 52; below that the
conversion is the identity and the division is exact). -/
def natDoubleVal (v : ℕ) : Option ℕ :=
  match doubleOfNatFrac v 1 with
  | some p => some (if 0 ≤ p.2 then p.1 * 2 ^ p.2.toNat else p.1 / 2 ^ (-p.2).toNat)
  | none => none

/-- Shortest-significand search of Number::toString for the integral double
value N with n decimal digits: the first k (from 1 upwards) whose k-digit
rounding of N round-trips to N; k = n always round-trips, so the fuel n
suffices.  Returns the significand and its digit count. -/
def pickSigGo (N n : ℕ) : ℕ → ℕ → ℕ × ℕ
  | _, 0 => (N, n)
  | k, fuel + 1 =>
    if natDoubleVal (rhe N (10 ^ (n - k)) * 10 ^ (n - k)) = some N then
      (rhe N (10 ^ (n - k)), k)
    else pickSigGo N n (k + 1) fuel

/-- Strip all trailing decimal zeros of a positive number, counting them;
used to normalise the significand when the rounded digits end in zeros. -/
def strip10 : ℕ → ℕ → ℕ × ℕ
  | 0, s => (s, 0)
  | fuel + 1, s =>
    if s % 10 = 0 ∧ s ≠ 0 then ((strip10 fuel (s / 10)).1, (strip10 fuel (s / 10)).2 + 1)
    else (s, 0)

/-- ECMAScript exponential notation for a significand digit list ds and a
decimal exponent P: the first digit, a dot and the remaining digits when
there are any, then e, + and the exponent digits. -/
def expNotation (ds : List Char) (P : ℕ) : List Char :=
  match ds with
  | [] => []
  | c :: [] => c :: 'e' :: '+' :: natDigits P
  | c :: rest => c :: '.' :: rest ++ 'e' :: '+' :: natDigits P

/-- Number::toString for a finite double of value 10 ^ 21 or more (then
integral, with a non-negative exponent): the shortest round-tripping
significand in exponential notation, ties of the significand rounding
going to even — the string toFixed returns for such magnitudes. -/
def jsToStringBig (m : ℕ) (e : ℤ) : List Char :=
  let N := m * 2 ^ e.toNat
  let n := (natDigits N).length
  let p := pickSigGo N n 1 n
  let z := strip10 p.1 p.1
  expNotation (natDigits z.1) (n - p.2 + z.2 + (natDigits z.1).length - 1)

/-- Drop one leading dot, if present.  Used on the reversed string after the
trailing zeros are gone: the regular expression backslash-dot-question
consumes the dot exactly when at least one zero followed it. -/
def dropDotHead (l : List Char) : List Char :=
  if l.head? = some '.' then l.tail else l

/-- The replace of the trailing-zeros regular expression on a reversed
character list: a (leftmost) match exists precisely when the string ends in
a zero, and it covers the maximal trailing zero run plus an immediately
preceding dot when there is one. -/
def trimRevZeros (r : List Char) : List Char :=
  if r.head? = some '0' then dropDotHead (r.dropWhile (fun c => c == '0'))
  else r

/-- String-level trailing-zero trim on a character list (the replace in
trimDecimals of src/utils.js, and the inline copies in the two formatters). -/
def jsTrimZeros (l : List Char) : List Char := (trimRevZeros l.reverse).reverse

/-- trimDecimals of src/utils.js on string input.  The JavaScript function
returns non-string input unchanged through its typeof guard; the claims
quantify over strings only. -/
def trimDecimals (s : String) : String := String.mk (jsTrimZeros s.data)

/-- Strip at most K factors of ten from the scaled value m, lowering the
decimal-place count accordingly: the arithmetic counterpart of removing
trailing fractional zeros (and the dot once the count reaches zero). -/
def stripTens : ℕ → ℕ → ℕ × ℕ
  | m, 0 => (m, 0)
  | m, k + 1 => if m % 10 = 0 then stripTens (m / 10) k else (m, k + 1)

/-- Specification-side rendering of m / 10 ^ K: with up to K decimal places,
insignificant trailing fractional zeros removed, and the decimal point
removed when no fractional digit remains — the wording of the Unit
Converter contract in the specification. -/
def canonicalFixed (K m : ℕ) : String :=
  String.mk (toFixedOfScaled (stripTens m K).2 (stripTens m K).1)

/-- formatGweiFromWei of src/utils.js: num = parseFloat(formatUnits(wei,
gwei)) is the double nearest wei / 10 ^ 9 (formatUnits renders the exact
decimal; parseFloat rounds it to the nearest double, so the composition is
one rounding).  Then the precision tiers of the source on the double num:
num.toFixed(0) at num ≥ 1000 (no trim on this branch; toFixed falls back
to the exponential Number::toString from 1e21 on, and renders Infinity as
the string Infinity), toFixed(3) with the trailing-zero replace at
num ≥ 1, toFixed(6) with the replace below. -/
def formatGweiFromWei (wei : ℕ) : String :=
  match doubleOfNatFrac wei (10 ^ 9) with
  | none => "Infinity"
  | some p =>
    if dGeNat p.1 p.2 1000 then
      if dGeNat p.1 p.2 (10 ^ 21) then String.mk (jsToStringBig p.1 p.2)
      else String.mk (toFixedOfScaled 0 (toFixedScaledD 0 p.1 p.2))
    else if dGeNat p.1 p.2 1 then
      String.mk (jsTrimZeros (toFixedOfScaled 3 (toFixedScaledD 3 p.1 p.2)))
    else
      String.mk (jsTrimZeros (toFixedOfScaled 6 (toFixedScaledD 6 p.1 p.2)))

/-- formatEthFromWei of src/utils.js: num = parseFloat(formatEther(wei)) is
the double nearest wei / 10 ^ 18; then the tiers of the source on num —
toFixed(6) at num ≥ 1 (with the exponential fallback from 1e21 on),
toFixed(6) again at num ≥ 0.001 (the comparison is against the double of
the literal 0.001), toFixed(9) below; every branch applies the
trailing-zero replace, also to the fallback and Infinity strings. -/
def formatEthFromWei (wei : ℕ) : String :=
  match doubleOfNatFrac wei (10 ^ 18) with
  | none => String.mk (jsTrimZeros "Infinity".data)
  | some p =>
    if dGeNat p.1 p.2 1 then
      if dGeNat p.1 p.2 (10 ^ 21) then String.mk (jsTrimZeros (jsToStringBig p.1 p.2))
      else String.mk (jsTrimZeros (toFixedOfScaled 6 (toFixedScaledD 6 p.1 p.2)))
    else if dGe p.1 p.2 dbl001.1 dbl001.2 then
      String.mk (jsTrimZeros (toFixedOfScaled 6 (toFixedScaledD 6 p.1 p.2)))
    else
      String.mk (jsTrimZeros (toFixedOfScaled 9 (toFixedScaledD 9 p.1 p.2)))

/-- Insert a comma before every third digit, counting from the right, on a
reversed digit list. -/
def commasRev : ℕ → List Char → List Char
  | _, [] => []
  | i, c :: t =>
    if i ≠ 0 ∧ i % 3 = 0 then ',' :: c :: commasRev (i + 1) t
    else c :: commasRev (i + 1) t

/-- Number.prototype.toLocaleString for a non-negative integer in the en-US
locale used by the displayed output: decimal digits with thousands commas. -/
def toLocaleString (n : ℕ) : String :=
  String.mk ((commasRev 0 (natDigits n).reverse).reverse)

/-- A JavaScript number: NaN, a signed infinity, or a finite value.  The
finite value fin n d stands for the exact decimal n / 10 ^ d; keeping the
numerator and the power-of-ten scale as integers makes the model fully
executable, and the rational value is recovered by jsNumVal. -/
inductive JsNum where
  | nan : JsNum
  | inf : Bool → JsNum
  | fin : ℤ → ℕ → JsNum
deriving DecidableEq

/-- The exact rational value of a finite JavaScript number. -/
def jsNumVal : JsNum → Option ℚ
  | JsNum.fin n d => some ((n : ℚ) / 10 ^ d)
  | _ => none

/-- A finite JavaScript number with its sign applied. -/
def jsSignedFin (neg : Bool) (n : ℤ) (d : ℕ) : JsNum :=
  JsNum.fin (if neg then -n else n) d

/-- A rounded double as a JavaScript number in exact decimal form: overflow
is the signed Infinity; a finite dyadic m * 2 ^ e equals m * 5 ^ E / 10 ^ E
for e = -E, and the common factors of ten are normalised away by
stripTens (every finite double has an exact decimal expansion). -/
def jsNumOfDouble (neg : Bool) (p : Option (ℕ × ℤ)) : JsNum :=
  match p with
  | none => JsNum.inf neg
  | some (m, e) =>
    if 0 ≤ e then jsSignedFin neg ((m : ℤ) * 2 ^ e.toNat) 0
    else jsSignedFin neg ((stripTens (m * 5 ^ (-e).toNat) (-e).toNat).1 : ℤ)
      (stripTens (m * 5 ^ (-e).toNat) (-e).toNat).2

/-- Number() of a non-negative BigInt, as in gasUnits = Number(gasLimit) of
src/estimator.js: the nearest double, ties to even — the identity below
2 ^ 53, inexact from there on, Infinity from 2 ^ 1024 - 2 ^ 970 on. -/
def jsNumberOfNat (n : ℕ) : JsNum := jsNumOfDouble false (doubleOfNatFrac n 1)

/-- Number.prototype.toLocaleString (en-US) on the estimator's gasUnits:
grouped decimal digits.  Number(gasLimit) is an integral double (decimal
scale zero after normalisation) or Infinity, so only those shapes reach
this call; a fractional scale is rendered by its integer part here. -/
def jsNumToLocaleString (v : JsNum) : String :=
  match v with
  | JsNum.nan => "NaN"
  | JsNum.inf b => if b then "-∞" else "∞"
  | JsNum.fin n d =>
    if 0 ≤ n then toLocaleString (n.toNat / 10 ^ d)
    else "-" ++ toLocaleString ((-n).toNat / 10 ^ d)

/-- A JavaScript value as the validators see it: a string, a number, or
anything else (undefined, null, boolean, object, ...). -/
inductive JsValue where
  | str : String → JsValue
  | num : JsNum → JsValue
  | other : JsValue

/-- Optional sign at the head of a numeric literal: (isNegative, rest). -/
def parseSignAux (l : List Char) : Bool × List Char :=
  match l with
  | '-' :: t => (true, t)
  | '+' :: t => (false, t)
  | _ => (false, l)

/-- Exponent part after the letter e or E: JavaScript parseFloat keeps the
longest valid prefix, so a missing digit run contributes exponent zero. -/
def parseExpAux (l : List Char) : ℤ :=
  let p := parseSignAux l
  let d := p.2.takeWhile Char.isDigit
  if d.isEmpty then 0
  else if p.1 then -(digitsToNat d : ℤ) else (digitsToNat d : ℤ)

/-- JavaScript parseFloat: skip leading whitespace, read an optional sign,
then either the literal Infinity or the longest decimal-literal prefix
(digits, optional dot and digits, optional exponent); NaN when no digit is
found.  The literal's exact value mant * 10 ^ (ex - fractionLength) is
rounded to the nearest double (ties to even): overflow yields the signed
Infinity — so isFinite rejects e.g. 1e400 — and underflow yields zero —
so e.g. 1e-400 parses to 0, exactly as the ECMAScript mathematical-value
rounding prescribes. -/
def parseFloat (s : String) : JsNum :=
  let l := s.data.dropWhile isWsChar
  let p := parseSignAux l
  if "Infinity".data.isPrefixOf p.2 then JsNum.inf p.1
  else
    let d1 := p.2.takeWhile Char.isDigit
    let r1 := p.2.dropWhile Char.isDigit
    let q : List Char × List Char :=
      match r1 with
      | '.' :: t => (t.takeWhile Char.isDigit, t.dropWhile Char.isDigit)
      | _ => ([], r1)
    if d1.isEmpty && q.1.isEmpty then JsNum.nan
    else
      let ex : ℤ :=
        match q.2 with
        | 'e' :: t => parseExpAux t
        | 'E' :: t => parseExpAux t
        | _ => 0
      let mant : ℕ := digitsToNat (d1 ++ q.1)
      let E : ℤ := ex - q.1.length
      jsNumOfDouble p.1
        (if 0 ≤ E then doubleOfNatFrac (mant * 10 ^ E.toNat) 1
         else doubleOfNatFrac mant (10 ^ (-E).toNat))

/-- Positivity of a JavaScript number after the checks of the source:
not NaN, finite, and strictly greater than zero. -/
def isPosJsNum : JsNum → Bool
  | JsNum.fin n _ => decide (0 < n)
  | _ => false

/-- isPositiveNumber of src/utils.js: a typeof guard admitting strings and
numbers, then parseFloat and the finiteness / positivity checks.  A numeric
argument is stringified by parseFloat and round-trips to itself in the
exact model. -/
def isPositiveNumber (v : JsValue) : Bool :=
  match v with
  | JsValue.str s => isPosJsNum (parseFloat s)
  | JsValue.num n => isPosJsNum n
  | JsValue.other => false

/-- Modelled from the spec: isValidAddress of src/utils.js delegates to
ethers.isAddress, a dependency whose source is not part of this repository.
Following the specification's description: accept exactly 42 characters
beginning with 0x whose remaining 40 characters are hexadecimal digits,
verifying — only for a mixed-case body — that the casing equals the
checksum casing derived from the lowercased digits.  The checksum
derivation itself (keccak-256 based) is abstracted as the parameter
checksum, which maps the lowercased 40-digit body to its canonically cased
form.  addressBody extracts the 40-character candidate after the prefix. -/
def addressBody (l : List Char) : Option (List Char) :=
  match l with
  | '0' :: 'x' :: body => some body
  | _ => none

/-- Modelled from the spec: the ethers.isAddress acceptance condition on the
extracted body, see addressBody. -/
def ethersIsAddress (checksum : String → String) (s : String) : Bool :=
  match addressBody s.data with
  | some body =>
    (decide (body.length = 40) && body.all isHexChar) &&
      (!(body.any isLowerHexLetter && body.any isUpperHexLetter) ||
        decide (body = (checksum (String.mk (body.map Char.toLower))).data))
  | none => false

/-- isValidAddress of src/utils.js: non-string input is rejected by the
typeof guard before the delegation to the address check. -/
def isValidAddress (checksum : String → String) (v : JsValue) : Bool :=
  match v with
  | JsValue.str s => ethersIsAddress checksum s
  | _ => false

/-- A thrown JavaScript error: its message and optional code property. -/
structure JsError where
  message : String
  code : Option String
deriving DecidableEq

/-- The EIP-1559 fee data returned by provider.getFeeData: either field may
be null (none); a present 0n is falsy to the selection in the source. -/
structure FeeData where
  maxFeePerGas : Option ℕ
  gasPrice : Option ℕ
deriving DecidableEq

/-- Outcomes of the two RPC calls estimateEthTransfer awaits, in source
order: getFeeData, then estimateGas. -/
structure RpcEnv where
  feeData : Except JsError FeeData
  estimateGas : Except JsError ℕ

/-- The record estimateEthTransfer of src/estimator.js returns.  gasUnits
is the JavaScript number Number(gasLimit) — the double nearest the BigInt
gas limit — while gasPriceWei and totalWei remain BigInt. -/
structure EstimationResult where
  gasUnits : JsNum
  gasPriceWei : ℕ
  totalWei : ℕ
  gasText : String
  totalText : String
deriving DecidableEq

/-- The recipient shape test of src/estimator.js, the regular expression
caret-0x[a-fA-F0-9]-40-dollar; the preceding falsy/typeof guard is subsumed
for string input. -/
def isAddrShaped (s : String) : Bool :=
  match s.data with
  | '0' :: 'x' :: body => decide (body.length = 40) && body.all isHexChar
  | _ => false

/-- ethers.parseEther on a string: an anchored optional minus sign, integer
digits, optional dot and fractional digits; at least one digit overall, at
most 18 fractional digits; the exact wei value as an integer.  none models
the throw the source converts into the invalid-value error. -/
def parseEther (s : String) : Option ℤ :=
  let p : Bool × List Char :=
    match s.data with
    | '-' :: t => (true, t)
    | _ => (false, s.data)
  let d1 := p.2.takeWhile Char.isDigit
  let r1 := p.2.dropWhile Char.isDigit
  let q : List Char × List Char :=
    match r1 with
    | '.' :: t => (t.takeWhile Char.isDigit, t.dropWhile Char.isDigit)
    | _ => ([], r1)
  if q.2.isEmpty && !(d1.isEmpty && q.1.isEmpty) && decide (q.1.length ≤ 18) then
    let w : ℤ := (digitsToNat d1 : ℤ) * 10 ^ 18 + (digitsToNat q.1 : ℤ) * 10 ^ (18 - q.1.length)
    some (if p.1 then -w else w)
  else none

/-- The gas price selection of src/estimator.js: maxFeePerGas short-circuits
the or unless it is falsy (null or 0n), then the falsy check on the chosen
value throws; some g with g positive is the usable outcome. -/
def jsSelectGasPrice (fd : FeeData) : Option ℕ :=
  let sel : Option ℕ :=
    match fd.maxFeePerGas with
    | some m => if m = 0 then fd.gasPrice else some m
    | none => fd.gasPrice
  match sel with
  | some g => if g = 0 then none else some g
  | none => none

/-- Substring test, as String.prototype.includes. -/
def hasSubstr : List Char → List Char → Bool
  | hay, needle =>
    if needle.isPrefixOf hay then true
    else
      match hay with
      | [] => false
      | _ :: t => hasSubstr t needle

/-- The catch clause of estimateEthTransfer: message-substring matching that
rewrites some errors and rethrows the rest unchanged. -/
def transformEstimateError (e : JsError) : JsError :=
  if hasSubstr e.message.data "insufficient funds".data then
    ⟨"Insufficient funds for gas estimation", none⟩
  else if hasSubstr e.message.data "invalid address".data then
    ⟨"Invalid recipient address", none⟩
  else if hasSubstr e.message.data "network".data then
    ⟨"Network connection failed. Please check your internet connection.", none⟩
  else if e.code = some "NETWORK_ERROR" then
    ⟨"Unable to connect to Base network. Please try again later.", none⟩
  else e

/-- The try body of estimateEthTransfer of src/estimator.js, in source
order: address shape check, parseEther, negativity check, getFeeData,
estimateGas, gas price selection, then the result record with the exact
BigInt product and the two display strings. -/
def estimateBody (env : RpcEnv) (toAddr valueEth : String) : Except JsError EstimationResult :=
  if isAddrShaped toAddr = false then Except.error ⟨"Invalid recipient address", none⟩
  else
    match parseEther valueEth with
    | none => Except.error ⟨"Invalid ETH value", none⟩
    | some w =>
      if w < 0 then Except.error ⟨"ETH value cannot be negative", none⟩
      else
        match env.feeData with
        | Except.error e => Except.error e
        | Except.ok fd =>
          match env.estimateGas with
          | Except.error e => Except.error e
          | Except.ok gasLimit =>
            match jsSelectGasPrice fd with
            | none => Except.error ⟨"Unable to fetch gas price from network", none⟩
            | some gasPrice =>
              Except.ok
                { gasUnits := jsNumberOfNat gasLimit
                  gasPriceWei := gasPrice
                  totalWei := gasLimit * gasPrice
                  gasText :=
                    formatGweiFromWei gasPrice ++ " Gwei (" ++ natToString gasPrice ++ " wei)"
                  totalText := formatEthFromWei (gasLimit * gasPrice) }

/-- estimateEthTransfer of src/estimator.js: the try body with its catch
clause applied to any thrown error. -/
def estimateEthTransfer (env : RpcEnv) (toAddr valueEth : String) :
    Except JsError EstimationResult :=
  match estimateBody env toAddr valueEth with
  | Except.ok r => Except.ok r
  | Except.error e => Except.error (transformEstimateError e)

/-- The parsed transfer command options (commander delivers strings). -/
structure TransferOptions where
  toAddr : String
  value : String
  network : String

/-- Observable outcome of one command invocation: stdout lines, stderr
lines, and the process exit code. -/
structure CliOutcome where
  stdoutLines : List String
  stderrLines : List String
  exitCode : ℕ
deriving DecidableEq

/-- Promise.all over two settled outcomes: both fulfilled yields the pair,
otherwise the rejection.  When both reject, Promise.all rejects with
whichever settles first; the claims concern single-failure runs only, and
the model takes the first component. -/
def jsPromiseAll {α β : Type} (a : Except JsError α) (b : Except JsError β) :
    Except JsError (α × β) :=
  match a, b with
  | Except.ok x, Except.ok y => Except.ok (x, y)
  | Except.error e, _ => Except.error e
  | _, Except.error e => Except.error e

/-- toFixed(6) of a non-negative rational, half-up, as the USDC display line
computes it. -/
def toFixed6Rat (x : ℚ) : String :=
  String.mk (toFixedOfScaled 6 (Int.toNat ⌊x * 1000000 + 1 / 2⌋))

/-- The USDC figure of displayResults: parseFloat on the ETH display string,
multiplied by the price and fixed to six decimals. -/
def displayUsdc (totalText : String) (price : ℚ) : String :=
  match parseFloat totalText with
  | JsNum.fin n d => toFixed6Rat ((n : ℚ) / 10 ^ d * price)
  | _ => "NaN"

/-- displayResults of src/cli.js: the three stdout lines. -/
def displayResults (est : EstimationResult) (price : ℚ) : List String :=
  ["Gas Units: " ++ jsNumToLocaleString est.gasUnits,
   "Gas Price: " ++ est.gasText,
   "Total Cost: " ++ est.totalText ++ " ETH (~" ++ displayUsdc est.totalText price ++ " USDC)"]

/-- The valid network list of handleTransfer. -/
def validNetworks : List String := ["base", "base-sepolia"]

/-- handleTransfer of src/cli.js: the three input validations (each fatal
with exit code 1), then Promise.all over the price fetch and the gas
estimation; any rejection reaches the catch clause, which prints the single
error line to stderr and exits with code 1; on success the three result
lines are printed and the process ends with code 0. -/
def handleTransfer (checksum : String → String) (opts : TransferOptions)
    (price : Except JsError ℚ) (env : RpcEnv) : CliOutcome :=
  if isValidAddress checksum (JsValue.str opts.toAddr) = false then
    { stdoutLines := []
      stderrLines := ["Error: Invalid recipient address",
        "Please provide a valid Ethereum address (0x... format)"]
      exitCode := 1 }
  else if isPositiveNumber (JsValue.str opts.value) = false then
    { stdoutLines := []
      stderrLines := ["Error: Invalid ETH value",
        "Please provide a positive number (e.g., 0.1, 1.5)"]
      exitCode := 1 }
  else if validNetworks.contains opts.network = false then
    { stdoutLines := []
      stderrLines := ["Error: Invalid network \"" ++ opts.network ++ "\"",
        "Supported networks: base, base-sepolia"]
      exitCode := 1 }
  else
    match jsPromiseAll price (estimateEthTransfer env opts.toAddr opts.value) with
    | Except.error e =>
      { stdoutLines := [], stderrLines := ["Error: " ++ e.message], exitCode := 1 }
    | Except.ok pe =>
      { stdoutLines := displayResults pe.2 pe.1, stderrLines := [], exitCode := 0 }

/-- The identity casing function, a concrete instantiation of the abstract
checksum parameter for witnesses on case-uniform addresses (which never
consult it). -/
def idChecksum : String → String := fun s => s

/-- A case-uniform valid recipient address used by the concrete witnesses. -/
def wAddr : String := "0x000000000000000000000000000000000000dead"

/-- An RPC environment where both remote calls succeed: a 1 gwei max fee and
the standard 21000-unit estimate. -/
def wEnvOk : RpcEnv := ⟨Except.ok ⟨some (10 ^ 9), none⟩, Except.ok 21000⟩

/-- An RPC environment where fee data arrives but the gas-estimate call
rejects. -/
def wEnvFail : RpcEnv := ⟨Except.ok ⟨some (10 ^ 9), none⟩, Except.error ⟨"missing from context", none⟩⟩

/-- The estimation record wEnvOk produces for a 0.1 ETH transfer. -/
def wResult : EstimationResult :=
  ⟨JsNum.fin 21000 0, 10 ^ 9, 21000 * 10 ^ 9, "1 Gwei (1000000000 wei)", "0.000021"⟩

/-- An RPC environment answering an adversarial gas limit of 2 ^ 53 + 1
units — the first integer a double cannot represent — at a 1 wei gas
price. -/
def wEnvBig : RpcEnv := ⟨Except.ok ⟨some 1, none⟩, Except.ok (2 ^ 53 + 1)⟩

/-- Concrete transfer options for the witnesses. -/
def wOpts : TransferOptions := ⟨wAddr, "0.1", "base"⟩

/-- The price-fetcher timeout error of src/price.js. -/
def wPriceErr : JsError := ⟨"Price API request timed out. Please try again.", none⟩

/-- A character surviving dropWhile at the head falsifies the predicate. -/
lemma head_dropWhile_not (p : Char → Bool) (l : List Char) (c : Char)
    (h : (l.dropWhile p).head? = some c) : p c = false := by
  induction l with
  | nil => simp [List.dropWhile] at h
  | cons a t ih =>
    by_cases hp : p a = true
    · rw [List.dropWhile_cons, if_pos hp] at h
      exact ih h
    · rw [List.dropWhile_cons, if_neg hp] at h
      simp only [List.head?_cons, Option.some.injEq] at h
      subst h
      exact Bool.not_eq_true _ ▸ Bool.of_not_eq_true hp

/-- dropWhile on zeros is the identity when the head is not a zero. -/
lemma dropWhile_of_head_ne (l : List Char) (h : l.head? ≠ some '0') :
    l.dropWhile (fun c => c == '0') = l := by
  cases l with
  | nil => rfl
  | cons a t =>
    have ha : a ≠ '0' := by
      intro hc
      exact h (by simp [hc])
    rw [List.dropWhile_cons, if_neg (by simp [ha])]

/-- The reversed-string trim is the identity without a leading zero. -/
lemma trimRevZeros_of_head_ne (r : List Char) (h : r.head? ≠ some '0') :
    trimRevZeros r = r := by
  unfold trimRevZeros
  exact if_neg h

/-- The trailing-zero replace is the identity on a string not ending in
zero: the regular expression has no match there. -/
lemma jsTrimZeros_of_getLast_ne (l : List Char) (h : l.getLast? ≠ some '0') :
    jsTrimZeros l = l := by
  unfold jsTrimZeros
  rw [trimRevZeros_of_head_ne _ (by rwa [List.head?_reverse]), List.reverse_reverse]

/-- String-level version of jsTrimZeros_of_getLast_ne. -/
lemma trimDecimals_of_getLast_ne (s : String) (h : s.data.getLast? ≠ some '0') :
    trimDecimals s = s := by
  cases s with
  | mk l => exact congrArg String.mk (jsTrimZeros_of_getLast_ne l h)

/-- dropDotHead is the identity without a leading dot. -/
lemma dropDotHead_of_head_ne (l : List Char) (h : l.head? ≠ some '.') :
    dropDotHead l = l := by
  unfold dropDotHead
  exact if_neg h

/-- Every list splits as a zero run followed by its dropWhile remainder. -/
lemma dropWhile_replicate_decomp (l : List Char) :
    ∃ k, l = List.replicate k '0' ++ l.dropWhile (fun c => c == '0') := by
  induction l with
  | nil => exact ⟨0, rfl⟩
  | cons a t ih =>
    by_cases ha : a = '0'
    · subst ha
      obtain ⟨k, hk⟩ := ih
      refine ⟨k + 1, ?_⟩
      rw [List.dropWhile_cons, if_pos (by decide)]
      rw [List.replicate_succ, List.cons_append]
      exact congrArg (List.cons '0') hk
    · refine ⟨0, ?_⟩
      rw [List.dropWhile_cons, if_neg (by simp [ha])]
      rfl

/-- Appending one zero does not change the trim outcome on the reversed
string, provided the string does not end (here: start) with a dot. -/
lemma trimRev_cons_zero (r : List Char) (h : r.head? ≠ some '.') :
    trimRevZeros ('0' :: r) = trimRevZeros r := by
  unfold trimRevZeros
  rw [if_pos (show ('0' :: r).head? = some '0' from rfl)]
  rw [List.dropWhile_cons, if_pos (by decide)]
  by_cases hr : r.head? = some '0'
  · rw [if_pos hr]
  · rw [if_neg hr, dropWhile_of_head_ne r hr, dropDotHead_of_head_ne r h]

/-- Appending one zero does not change the trimmed string, provided the
string does not end with a dot. -/
lemma jsTrim_concat_zero (y : List Char) (h : y.getLast? ≠ some '.') :
    jsTrimZeros (y ++ ['0']) = jsTrimZeros y := by
  unfold jsTrimZeros
  have hrev : (y ++ ['0']).reverse = '0' :: y.reverse := by simp
  rw [hrev, trimRev_cons_zero y.reverse (by rwa [List.head?_reverse])]

/-- A string ending in dot-zero trims to the part before the dot. -/
lemma jsTrim_concat_dot_zero (x : List Char) : jsTrimZeros (x ++ ['.', '0']) = x := by
  unfold jsTrimZeros
  have hrev : (x ++ ['.', '0']).reverse = '0' :: '.' :: x.reverse := by simp
  rw [hrev]
  unfold trimRevZeros
  rw [if_pos (show ('0' :: '.' :: x.reverse).head? = some '0' from rfl),
    List.dropWhile_cons, if_pos (by decide), List.dropWhile_cons, if_neg (by decide)]
  unfold dropDotHead
  rw [if_pos (show ('.' :: x.reverse).head? = some '.' from rfl)]
  exact List.reverse_reverse x

/-- Digit characters are never the dot. -/
lemma digitChar_ne_dot (d : ℕ) (h : d < 10) : Nat.digitChar d ≠ '.' := by
  interval_cases d <;> decide

/-- A digit character is the zero character exactly for the digit zero. -/
lemma digitChar_eq_zero_iff (d : ℕ) (h : d < 10) : Nat.digitChar d = '0' ↔ d = 0 := by
  interval_cases d <;> decide

/-- All characters produced by the digit worker are decimal digits of
values below ten. -/
lemma natDigitsAux_mem (fuel : ℕ) : ∀ n c, c ∈ natDigitsAux fuel n →
    ∃ d, d < 10 ∧ c = Nat.digitChar d := by
  induction fuel with
  | zero => intro n c hc; simp [natDigitsAux] at hc
  | succ fuel ih =>
    intro n c hc
    unfold natDigitsAux at hc
    by_cases hn : n < 10
    · rw [if_pos hn] at hc
      simp only [List.mem_singleton] at hc
      exact ⟨n, hn, hc⟩
    · rw [if_neg hn] at hc
      rcases List.mem_append.1 hc with hc | hc
      · exact ih _ _ hc
      · simp only [List.mem_singleton] at hc
        exact ⟨n % 10, Nat.mod_lt _ (by omega), hc⟩

/-- The decimal rendering of a natural number contains no dot. -/
lemma natDigits_ne_dot (n : ℕ) : ∀ c ∈ natDigits n, c ≠ '.' := by
  intro c hc
  obtain ⟨d, hd, rfl⟩ := natDigitsAux_mem _ _ _ hc
  exact digitChar_ne_dot d hd

/-- toFixed output with at least one decimal place ends in the digit
character of the value's last digit. -/
lemma toFixed_concat_digit (K m : ℕ) :
    toFixedOfScaled (K + 1) m =
      (natDigits (m / 10 ^ (K + 1)) ++ '.' :: fracDigits K (m % 10 ^ (K + 1) / 10)) ++
        [Nat.digitChar (m % 10)] := by
  show natDigits (m / 10 ^ (K + 1)) ++ '.' :: fracDigits (K + 1) (m % 10 ^ (K + 1)) = _
  rw [fracDigits]
  rw [Nat.mod_mod_of_dvd m (dvd_pow_self 10 (Nat.succ_ne_zero K))]
  simp [List.cons_append, List.append_assoc]

/-- Last character of a toFixed output with at least one decimal place. -/
lemma getLast?_toFixed (K m : ℕ) :
    (toFixedOfScaled (K + 1) m).getLast? = some (Nat.digitChar (m % 10)) := by
  rw [toFixed_concat_digit, List.getLast?_concat]

/-- Removing a trailing fractional zero shifts the scaled value and the
decimal-place count down by one (two or more decimal places). -/
lemma toFixed_shift (j m : ℕ) (hm : m % 10 = 0) :
    toFixedOfScaled (j + 2) m = toFixedOfScaled (j + 1) (m / 10) ++ ['0'] := by
  have e1 : m / 10 ^ (j + 2) = m / 10 / 10 ^ (j + 1) := by
    rw [Nat.div_div_eq_div_mul, show 10 * 10 ^ (j + 1) = 10 ^ (j + 2) by ring]
  have e2 : m % 10 ^ (j + 2) / 10 = m / 10 % 10 ^ (j + 1) := by
    have h := Nat.mod_mul_right_div_self m 10 (10 ^ (j + 1))
    rwa [show 10 * 10 ^ (j + 1) = 10 ^ (j + 2) by ring] at h
  have e3 : m % 10 ^ (j + 2) % 10 = 0 := by
    rw [Nat.mod_mod_of_dvd m (dvd_pow_self 10 (by omega : j + 2 ≠ 0))]
    exact hm
  show natDigits (m / 10 ^ (j + 2)) ++ '.' :: fracDigits (j + 2) (m % 10 ^ (j + 2)) = _
  rw [show fracDigits (j + 2) (m % 10 ^ (j + 2)) =
      fracDigits (j + 1) (m % 10 ^ (j + 2) / 10) ++
        [Nat.digitChar (m % 10 ^ (j + 2) % 10)] from rfl]
  rw [e1, e2, e3]
  show natDigits (m / 10 / 10 ^ (j + 1)) ++
      '.' :: (fracDigits (j + 1) (m / 10 % 10 ^ (j + 1)) ++ ['0']) =
    (natDigits (m / 10 / 10 ^ (j + 1)) ++
      '.' :: fracDigits (j + 1) (m / 10 % 10 ^ (j + 1))) ++ ['0']
  simp [List.cons_append, List.append_assoc]

/-- Unfolding stripTens when a factor of ten is stripped. -/
lemma stripTens_succ_of_mod (m k : ℕ) (hm : m % 10 = 0) :
    stripTens m (k + 1) = stripTens (m / 10) k := by
  simp [stripTens, hm]

/-- Unfolding stripTens when the last digit is significant. -/
lemma stripTens_succ_of_ne (m k : ℕ) (hm : m % 10 ≠ 0) :
    stripTens m (k + 1) = (m, k + 1) := by
  simp [stripTens, hm]

/-- When stripTens keeps a positive decimal-place count, the retained scaled
value has a significant last digit. -/
lemma stripTens_mod_ne (K : ℕ) : ∀ m j, (stripTens m K).2 = j + 1 →
    (stripTens m K).1 % 10 ≠ 0 := by
  induction K with
  | zero => intro m j h; simp [stripTens] at h
  | succ k ih =>
    intro m j h
    by_cases hm : m % 10 = 0
    · rw [stripTens_succ_of_mod m k hm] at h ⊢
      exact ih (m / 10) j h
    · rw [stripTens_succ_of_ne m k hm]
      exact hm

/-- Stripping E factors of ten from g * 10 ^ E recovers g at scale zero. -/
lemma stripTens_mul_pow (g : ℕ) : ∀ E, stripTens (g * 10 ^ E) E = (g, 0) := by
  intro E
  induction E with
  | zero => simp [stripTens]
  | succ E ih =>
    have h10 : g * 10 ^ (E + 1) = g * 10 ^ E * 10 := by ring
    rw [h10, stripTens_succ_of_mod _ _ (Nat.mul_mod_left _ 10),
      Nat.mul_div_cancel _ (by norm_num : 0 < 10)]
    exact ih

/-- Rounding an integer to the nearest integer is the identity. -/
lemma rhe_one (N : ℕ) : rhe N 1 = N := by
  unfold rhe
  rw [Nat.mod_one, Nat.div_one]
  norm_num

/-- The bit-length worker maps zero to zero for every fuel. -/
lemma bitLenAux_zero (fuel : ℕ) : bitLenAux fuel 0 = 0 := by
  cases fuel <;> simp [bitLenAux]

/-- With sufficient fuel the bit-length worker brackets its positive
argument between consecutive powers of two. -/
lemma bitLenAux_spec : ∀ fuel n, 0 < n → n ≤ fuel →
    1 ≤ bitLenAux fuel n ∧ 2 ^ (bitLenAux fuel n - 1) ≤ n ∧ n < 2 ^ bitLenAux fuel n := by
  intro fuel
  induction fuel with
  | zero => intro n h0 hf; omega
  | succ fuel ih =>
    intro n h0 hf
    rw [show bitLenAux (fuel + 1) n = if n = 0 then 0 else bitLenAux fuel (n / 2) + 1 from rfl]
    rw [if_neg (by omega)]
    rcases Nat.lt_or_ge n 2 with h2 | h2
    · have hn1 : n = 1 := by omega
      subst hn1
      rw [show (1 : ℕ) / 2 = 0 from rfl, bitLenAux_zero]
      norm_num
    · have hpos : 0 < n / 2 := by omega
      have hfle : n / 2 ≤ fuel := by omega
      obtain ⟨h1b, hleb, hltb⟩ := ih (n / 2) hpos hfle
      have hp1 : 2 ^ (bitLenAux fuel (n / 2) - 1) * 2 = 2 ^ bitLenAux fuel (n / 2) := by
        rw [← pow_succ]
        congr 1
        omega
      have hp2 : 2 ^ bitLenAux fuel (n / 2) * 2 = 2 ^ (bitLenAux fuel (n / 2) + 1) := by
        rw [← pow_succ]
      refine ⟨by omega, ?_, ?_⟩
      · have he : bitLenAux fuel (n / 2) + 1 - 1 = bitLenAux fuel (n / 2) := by omega
        rw [he]
        omega
      · omega

/-- The bit length of a positive number brackets it between powers of two. -/
lemma bitLen_spec (n : ℕ) (h : 0 < n) :
    1 ≤ bitLen n ∧ 2 ^ (bitLen n - 1) ≤ n ∧ n < 2 ^ bitLen n :=
  bitLenAux_spec n n h le_rfl

/-- The window shift against denominator one. -/
lemma dShift_one (g : ℕ) : dShift g 1 = (bitLen g : ℤ) - 54 := by
  unfold dShift
  rw [show bitLen 1 = 1 from rfl]
  ring

/-- The window quotient against denominator one, for arguments of at most
53 bits. -/
lemma dQ0_one (g : ℕ) (h53 : bitLen g ≤ 53) :
    dQ0 g 1 = g * 2 ^ (54 - bitLen g) := by
  unfold dQ0
  rw [dShift_one]
  rw [if_neg (by omega)]
  have ht : (-((bitLen g : ℤ) - 54)).toNat = 54 - bitLen g := by omega
  rw [ht, Nat.div_one]

/-- For a positive integer of at most 53 bits the corrected window scale is
its bit length minus 53 (non-positive): the integer is exactly
representable at that scale. -/
lemma dScale1_one_small (g : ℕ) (h1 : 1 ≤ bitLen g) (h53 : bitLen g ≤ 53)
    (hle : 2 ^ (bitLen g - 1) ≤ g) : dScale1 g 1 = (bitLen g : ℤ) - 53 := by
  have hq : ¬ dQ0 g 1 < 2 ^ 53 := by
    rw [dQ0_one g h53]
    have h2 : 2 ^ (bitLen g - 1) * 2 ^ (54 - bitLen g) ≤ g * 2 ^ (54 - bitLen g) :=
      Nat.mul_le_mul_right _ hle
    rw [← pow_add] at h2
    have he : bitLen g - 1 + (54 - bitLen g) = 53 := by omega
    rw [he] at h2
    omega
  unfold dScale1
  rw [if_neg hq, dShift_one]
  ring

/-- The subnormal clamp never fires for small positive integers. -/
lemma dScale_one_small (g : ℕ) (h1 : 1 ≤ bitLen g) (h53 : bitLen g ≤ 53)
    (hle : 2 ^ (bitLen g - 1) ≤ g) : dScale g 1 = (bitLen g : ℤ) - 53 := by
  unfold dScale
  rw [dScale1_one_small g h1 h53 hle]
  rw [if_neg (by omega)]

set_option maxRecDepth 100000 in
/-- Number() is the identity below 2 ^ 53: every such integer is exactly
representable as a double, and the decimal normalisation recovers it. -/
lemma jsNumberOfNat_small (g : ℕ) (hg : g < 2 ^ 53) : jsNumberOfNat g = JsNum.fin g 0 := by
  rcases Nat.eq_zero_or_pos g with h0 | hpos
  · subst h0; decide
  · obtain ⟨hL1, hle, hlt⟩ := bitLen_spec g hpos
    have hL53 : bitLen g ≤ 53 := by
      by_contra hcon
      push_neg at hcon
      have : (2 : ℕ) ^ 53 ≤ 2 ^ (bitLen g - 1) := Nat.pow_le_pow_right (by norm_num) (by omega)
      omega
    have hs := dScale_one_small g hL1 hL53 hle
    have h53x : (2 : ℕ) ^ 53 ≤ 2 ^ 1024 := Nat.pow_le_pow_right (by norm_num) (by norm_num)
    rcases Nat.lt_or_ge (bitLen g) 53 with hLlt | hLge
    · have hsneg : dScale g 1 < 0 := by rw [hs]; omega
      have hE : (-dScale g 1).toNat = 53 - bitLen g := by
        rw [hs]; omega
      have hrd : roundToDouble g 1 = (g * 2 ^ (53 - bitLen g), dScale g 1) := by
        unfold roundToDouble
        rw [if_neg (by omega : ¬ g = 0), if_neg (by omega : ¬ (0 : ℤ) ≤ dScale g 1), hE]
        rw [rhe_one]
      have hdf : doubleOfNatFrac g 1 = some (g * 2 ^ (53 - bitLen g), dScale g 1) := by
        unfold doubleOfNatFrac
        rw [hrd]
        rw [if_neg (fun hc => absurd hc.1 (not_le.mpr hsneg))]
      unfold jsNumberOfNat jsNumOfDouble
      rw [hdf]
      simp only [if_neg (by omega : ¬ (0 : ℤ) ≤ dScale g 1)]
      rw [hE]
      have hmul : g * 2 ^ (53 - bitLen g) * 5 ^ (53 - bitLen g) = g * 10 ^ (53 - bitLen g) := by
        rw [mul_assoc, ← mul_pow]
        norm_num
      rw [hmul, stripTens_mul_pow]
      rfl
    · have hL : bitLen g = 53 := le_antisymm hL53 hLge
      have hs0 : dScale g 1 = 0 := by rw [hs, hL]; ring
      have hrd : roundToDouble g 1 = (g, 0) := by
        unfold roundToDouble
        rw [if_neg (by omega : ¬ g = 0), hs0, if_pos (le_refl (0 : ℤ))]
        norm_num [rhe_one]
      have hdf : doubleOfNatFrac g 1 = some (g, 0) := by
        unfold doubleOfNatFrac
        rw [hrd]
        rw [if_neg (fun hc => absurd hc.2 (by simp; omega))]
      unfold jsNumberOfNat jsNumOfDouble
      rw [hdf]
      norm_num [jsSignedFin]

/-- Character-level trailing-zero trimming of a toFixed rendering agrees
with the arithmetic trimming by stripTens: the regular-expression replace of
the source and the specification's trim-to-significant-decimals coincide on
every fixed-point rendering with at least one decimal place. -/
lemma jsTrim_toFixed (K : ℕ) : ∀ m, 1 ≤ K →
    jsTrimZeros (toFixedOfScaled K m) =
      toFixedOfScaled (stripTens m K).2 (stripTens m K).1 := by
  induction K with
  | zero => intro m h; omega
  | succ k ih =>
    intro m _
    by_cases hm : m % 10 = 0
    · rcases Nat.eq_zero_or_pos k with hk | hk
      · subst hk
        have h1 : toFixedOfScaled 1 m = natDigits (m / 10) ++ ['.', '0'] := by
          show natDigits (m / 10 ^ 1) ++ '.' :: fracDigits 1 (m % 10 ^ 1) = _
          have e : m % 10 ^ 1 % 10 = 0 := by
            rw [pow_one]
            omega
          rw [show fracDigits 1 (m % 10 ^ 1) = [Nat.digitChar (m % 10 ^ 1 % 10)] from rfl,
            e, pow_one]
          rfl
        rw [h1, jsTrim_concat_dot_zero]
        rw [stripTens_succ_of_mod m 0 hm]
        rfl
      · obtain ⟨j, rfl⟩ := Nat.exists_eq_succ_of_ne_zero (Nat.pos_iff_ne_zero.mp hk)
        rw [toFixed_shift j m hm]
        rw [jsTrim_concat_zero _ ?hne]
        case hne =>
          rw [getLast?_toFixed]
          intro hc
          exact digitChar_ne_dot (m / 10 % 10) (Nat.mod_lt _ (by omega)) (Option.some.inj hc)
        rw [ih (m / 10) (by omega), stripTens_succ_of_mod m (j + 1) hm]
    · have hne : (toFixedOfScaled (k + 1) m).getLast? ≠ some '0' := by
        rw [getLast?_toFixed]
        intro hc
        exact hm ((digitChar_eq_zero_iff (m % 10) (Nat.mod_lt _ (by omega))).1
          (Option.some.inj hc))
      rw [jsTrimZeros_of_getLast_ne _ hne, stripTens_succ_of_ne m k hm]

/-- The head of the reversed-string trim outcome is never a zero when the
input contains no dot. -/
lemma trimRev_head_ne_zero (r : List Char) (h : '.' ∉ r) :
    (trimRevZeros r).head? ≠ some '0' := by
  unfold trimRevZeros
  by_cases hr : r.head? = some '0'
  · rw [if_pos hr]
    have hd0 : (r.dropWhile (fun c => c == '0')).head? ≠ some '0' := by
      intro hc
      have := head_dropWhile_not _ _ _ hc
      simp at this
    have hddot : (r.dropWhile (fun c => c == '0')).head? ≠ some '.' := by
      intro hc
      exact h ((List.dropWhile_sublist _).mem (List.mem_of_mem_head? hc))
    rw [dropDotHead_of_head_ne _ hddot]
    exact hd0
  · rw [if_neg hr]
    exact hr

/-- Trimming a dot-free string yields a string not ending in zero. -/
lemma trimDecimals_getLast_of_no_dot (s : String) (h : '.' ∉ s.data) :
    (trimDecimals s).data.getLast? ≠ some '0' := by
  cases s with
  | mk l =>
    show (jsTrimZeros l).getLast? ≠ some '0'
    unfold jsTrimZeros
    rw [List.getLast?_reverse]
    exact trimRev_head_ne_zero l.reverse (by simpa [List.mem_reverse] using h)

/-- A canonically trimmed rendering that still contains a dot does not end
in a zero. -/
lemma canonicalFixed_dot_getLast (K m : ℕ) (hdot : '.' ∈ (canonicalFixed K m).data) :
    (canonicalFixed K m).data.getLast? ≠ some '0' := by
  have hdata : (canonicalFixed K m).data =
      toFixedOfScaled (stripTens m K).2 (stripTens m K).1 := rfl
  rw [hdata] at hdot ⊢
  rcases hsnd : (stripTens m K).2 with _ | j
  · rw [hsnd] at hdot
    exact absurd rfl (natDigits_ne_dot _ '.' hdot)
  · rw [getLast?_toFixed]
    intro hc
    exact stripTens_mod_ne K m j hsnd
      ((digitChar_eq_zero_iff _ (Nat.mod_lt _ (by omega))).1 (Option.some.inj hc))

/-- Characters produced by the fractional-digit worker are digit
characters. -/
lemma fracDigits_mem : ∀ K f c, c ∈ fracDigits K f → ∃ d, d < 10 ∧ c = Nat.digitChar d := by
  intro K
  induction K with
  | zero => intro f c hc; simp [fracDigits] at hc
  | succ K ih =>
    intro f c hc
    unfold fracDigits at hc
    rcases List.mem_append.1 hc with hc | hc
    · exact ih _ _ hc
    · simp only [List.mem_singleton] at hc
      exact ⟨f % 10, Nat.mod_lt _ (by omega), hc⟩

/-- A dot-free character list has dot count zero. -/
lemma count_dot_eq_zero (l : List Char) (h : ∀ c ∈ l, c ≠ '.') : l.count '.' = 0 :=
  List.count_eq_zero.mpr (fun hm => h '.' hm rfl)

/-- Exponential notation over a dot-free significand carries at most one
dot. -/
lemma expNotation_count_dot (ds : List Char) (P : ℕ) (h : ∀ c ∈ ds, c ≠ '.') :
    (expNotation ds P).count '.' ≤ 1 := by
  have hP : (natDigits P).count '.' = 0 := count_dot_eq_zero _ (natDigits_ne_dot P)
  match ds with
  | [] => simp [expNotation]
  | [c] =>
    show (c :: 'e' :: '+' :: natDigits P).count '.' ≤ 1
    have hc : (c == '.') = false := by
      simp only [beq_eq_false_iff_ne, ne_eq]
      exact h c (by simp)
    simp [List.count_cons, hc, hP]
  | c :: b :: rest =>
    show (c :: '.' :: (b :: rest) ++ 'e' :: '+' :: natDigits P).count '.' ≤ 1
    have hc : (c == '.') = false := by
      simp only [beq_eq_false_iff_ne, ne_eq]
      exact h c (by simp)
    have hb : (b == '.') = false := by
      simp only [beq_eq_false_iff_ne, ne_eq]
      exact h b (by simp)
    have hrest : rest.count '.' = 0 :=
      count_dot_eq_zero _ (fun x hx => h x (by simp [hx]))
    simp [List.count_cons, List.count_append, hc, hb, hP, hrest]

/-- The exponential rendering of a large double carries at most one dot. -/
lemma toStringBig_count_dot (m : ℕ) (e : ℤ) : (jsToStringBig m e).count '.' ≤ 1 :=
  expNotation_count_dot _ _ (natDigits_ne_dot _)

/-- A toFixed rendering carries at most one dot. -/
lemma toFixed_count_dot (K x : ℕ) : (toFixedOfScaled K x).count '.' ≤ 1 := by
  match K with
  | 0 => simp [toFixedOfScaled, count_dot_eq_zero _ (natDigits_ne_dot x)]
  | K + 1 =>
    show (natDigits (x / 10 ^ (K + 1)) ++ '.' :: fracDigits (K + 1) (x % 10 ^ (K + 1))).count '.' ≤ 1
    have h1 : (natDigits (x / 10 ^ (K + 1))).count '.' = 0 :=
      count_dot_eq_zero _ (natDigits_ne_dot _)
    have h2 : (fracDigits (K + 1) (x % 10 ^ (K + 1))).count '.' = 0 := by
      apply count_dot_eq_zero
      intro c hc
      obtain ⟨d, hd, rfl⟩ := fracDigits_mem _ _ _ hc
      exact digitChar_ne_dot d hd
    simp [List.count_append, List.count_cons, h1, h2]

/-- Trimming a string with at most one dot that still shows a dot leaves no
trailing zero: either the trim consumed no characters (the last character
was not a zero), or it stopped at a significant character, or it consumed
the only dot — and then no dot survives. -/
lemma jsTrim_count_dot (l : List Char) (hc : l.count '.' ≤ 1)
    (hdot : '.' ∈ jsTrimZeros l) : (jsTrimZeros l).getLast? ≠ some '0' := by
  unfold jsTrimZeros at hdot ⊢
  rw [List.getLast?_reverse]
  rw [List.mem_reverse] at hdot
  have hcr : l.reverse.count '.' ≤ 1 := by rwa [List.count_reverse]
  obtain ⟨r, hr⟩ : ∃ r, l.reverse = r := ⟨_, rfl⟩
  rw [hr] at hdot hcr ⊢
  unfold trimRevZeros at hdot ⊢
  by_cases h0 : r.head? = some '0'
  · rw [if_pos h0] at hdot ⊢
    have hsub := List.dropWhile_sublist (l := r) (fun c => c == '0')
    obtain ⟨d, hD⟩ : ∃ d, r.dropWhile (fun c => c == '0') = d := ⟨_, rfl⟩
    rw [hD] at hdot hsub ⊢
    have hd0 : d.head? ≠ some '0' := by
      intro hcon
      rw [← hD] at hcon
      have := head_dropWhile_not _ _ _ hcon
      simp at this
    by_cases hdd : d.head? = some '.'
    · obtain ⟨rest, hrest⟩ : ∃ rest, d = '.' :: rest := by
        cases hd2 : d with
        | nil => rw [hd2] at hdd; simp at hdd
        | cons a t =>
          rw [hd2] at hdd
          simp only [List.head?_cons, Option.some.injEq] at hdd
          exact ⟨t, by rw [hdd]⟩
      rw [hrest] at hdot hsub ⊢
      unfold dropDotHead at hdot ⊢
      rw [if_pos (show ('.' :: rest).head? = some '.' from rfl)] at hdot ⊢
      exfalso
      have hcnt := hsub.count_le '.'
      rw [List.count_cons_self] at hcnt
      have h1r : 1 ≤ rest.count '.' := List.one_le_count_iff.mpr hdot
      omega
    · rw [dropDotHead_of_head_ne d hdd] at hdot ⊢
      exact hd0
  · rw [if_neg h0] at hdot ⊢
    exact h0

/-- The gwei formatter on an overflowing amount. -/
lemma formatGwei_eq_inf (wei : ℕ) (hd : doubleOfNatFrac wei (10 ^ 9) = none) :
    formatGweiFromWei wei = "Infinity" := by
  unfold formatGweiFromWei
  rw [hd]

/-- The gwei formatter on its integer tier below the exponential fallback. -/
lemma formatGwei_eq_tier0 (wei : ℕ) (p : ℕ × ℤ)
    (hd : doubleOfNatFrac wei (10 ^ 9) = some p) (h1 : dGeNat p.1 p.2 1000 = true)
    (h2 : dGeNat p.1 p.2 (10 ^ 21) = false) :
    formatGweiFromWei wei = String.mk (toFixedOfScaled 0 (toFixedScaledD 0 p.1 p.2)) := by
  unfold formatGweiFromWei
  rw [hd]
  simp only [h1, h2, Bool.false_eq_true, if_false, if_true]

/-- The gwei formatter on the exponential fallback of its integer tier. -/
lemma formatGwei_eq_big (wei : ℕ) (p : ℕ × ℤ)
    (hd : doubleOfNatFrac wei (10 ^ 9) = some p) (h1 : dGeNat p.1 p.2 1000 = true)
    (h2 : dGeNat p.1 p.2 (10 ^ 21) = true) :
    formatGweiFromWei wei = String.mk (jsToStringBig p.1 p.2) := by
  unfold formatGweiFromWei
  rw [hd]
  simp only [h1, h2, if_true]

/-- The gwei formatter on its middle tier. -/
lemma formatGwei_eq_tier3 (wei : ℕ) (p : ℕ × ℤ)
    (hd : doubleOfNatFrac wei (10 ^ 9) = some p) (h1 : dGeNat p.1 p.2 1000 = false)
    (h2 : dGeNat p.1 p.2 1 = true) :
    formatGweiFromWei wei =
      String.mk (jsTrimZeros (toFixedOfScaled 3 (toFixedScaledD 3 p.1 p.2))) := by
  unfold formatGweiFromWei
  rw [hd]
  simp only [h1, h2, Bool.false_eq_true, if_false, if_true]

/-- The gwei formatter on its lowest tier. -/
lemma formatGwei_eq_tier6 (wei : ℕ) (p : ℕ × ℤ)
    (hd : doubleOfNatFrac wei (10 ^ 9) = some p) (h1 : dGeNat p.1 p.2 1000 = false)
    (h2 : dGeNat p.1 p.2 1 = false) :
    formatGweiFromWei wei =
      String.mk (jsTrimZeros (toFixedOfScaled 6 (toFixedScaledD 6 p.1 p.2))) := by
  unfold formatGweiFromWei
  rw [hd]
  simp only [h1, h2, Bool.false_eq_true, if_false]

/-- The ETH formatter on an overflowing amount. -/
lemma formatEth_eq_inf (wei : ℕ) (hd : doubleOfNatFrac wei (10 ^ 18) = none) :
    formatEthFromWei wei = String.mk (jsTrimZeros "Infinity".data) := by
  unfold formatEthFromWei
  rw [hd]

/-- The ETH formatter on its upper tier below the exponential fallback. -/
lemma formatEth_eq_six_hi (wei : ℕ) (p : ℕ × ℤ)
    (hd : doubleOfNatFrac wei (10 ^ 18) = some p) (h1 : dGeNat p.1 p.2 1 = true)
    (h2 : dGeNat p.1 p.2 (10 ^ 21) = false) :
    formatEthFromWei wei =
      String.mk (jsTrimZeros (toFixedOfScaled 6 (toFixedScaledD 6 p.1 p.2))) := by
  unfold formatEthFromWei
  rw [hd]
  simp only [h1, h2, Bool.false_eq_true, if_false, if_true]

/-- The ETH formatter on the exponential fallback of its upper tier. -/
lemma formatEth_eq_big (wei : ℕ) (p : ℕ × ℤ)
    (hd : doubleOfNatFrac wei (10 ^ 18) = some p) (h1 : dGeNat p.1 p.2 1 = true)
    (h2 : dGeNat p.1 p.2 (10 ^ 21) = true) :
    formatEthFromWei wei = String.mk (jsTrimZeros (jsToStringBig p.1 p.2)) := by
  unfold formatEthFromWei
  rw [hd]
  simp only [h1, h2, if_true]

/-- The ETH formatter on its middle tier. -/
lemma formatEth_eq_six_lo (wei : ℕ) (p : ℕ × ℤ)
    (hd : doubleOfNatFrac wei (10 ^ 18) = some p) (h1 : dGeNat p.1 p.2 1 = false)
    (h2 : dGe p.1 p.2 dbl001.1 dbl001.2 = true) :
    formatEthFromWei wei =
      String.mk (jsTrimZeros (toFixedOfScaled 6 (toFixedScaledD 6 p.1 p.2))) := by
  unfold formatEthFromWei
  rw [hd]
  simp only [h1, h2, Bool.false_eq_true, if_false, if_true]

/-- The ETH formatter on its lowest tier. -/
lemma formatEth_eq_nine (wei : ℕ) (p : ℕ × ℤ)
    (hd : doubleOfNatFrac wei (10 ^ 18) = some p) (h1 : dGeNat p.1 p.2 1 = false)
    (h2 : dGe p.1 p.2 dbl001.1 dbl001.2 = false) :
    formatEthFromWei wei =
      String.mk (jsTrimZeros (toFixedOfScaled 9 (toFixedScaledD 9 p.1 p.2))) := by
  unfold formatEthFromWei
  rw [hd]
  simp only [h1, h2, Bool.false_eq_true, if_false]

/-- C4 counterexample: the claim that trimTrailingZeros only removes zeros adjacent to a
decimal point fails: on the dot-free string 100 the replace still strips
the trailing zero run, so digits are lost. -/
theorem trimDecimals_strips_undotted_zeros :
    trimDecimals "100" = "1" ∧ '.' ∉ "100".data ∧ trimDecimals "100" ≠ "100" := by
  decide

/-- C4 (amended): a string not ending in the
digit 0 is returned unchanged, and a string ending in 0 loses exactly its
maximal trailing zero run — wherever it occurs, also with no decimal point
adjacent — together with an immediately preceding decimal point when one is
present. -/
theorem trimDecimals_trailing_run : ∀ s : String,
    (s.data.getLast? ≠ some '0' → trimDecimals s = s) ∧
    (s.data.getLast? = some '0' →
      ∃ p k, 0 < k ∧ s.data = p ++ List.replicate k '0' ∧ p.getLast? ≠ some '0' ∧
        trimDecimals s = String.mk (if p.getLast? = some '.' then p.dropLast else p)) := by
  intro s
  refine ⟨trimDecimals_of_getLast_ne s, ?_⟩
  intro h
  cases s with
  | mk l =>
    obtain ⟨k, hk⟩ := dropWhile_replicate_decomp l.reverse
    obtain ⟨d, hD⟩ : ∃ d, l.reverse.dropWhile (fun c => c == '0') = d := ⟨_, rfl⟩
    rw [hD] at hk
    have hd0 : d.head? ≠ some '0' := by
      intro hc
      rw [← hD] at hc
      have := head_dropWhile_not _ _ _ hc
      simp at this
    have hrhead : l.reverse.head? = some '0' := by
      rw [List.head?_reverse]
      exact h
    have hk0 : 0 < k := by
      rcases Nat.eq_zero_or_pos k with h0 | h0
      · exfalso
        apply hd0
        subst h0
        rw [List.replicate_zero, List.nil_append] at hk
        rw [← hk]
        exact hrhead
      · exact h0
    refine ⟨d.reverse, k, hk0, ?_, ?_, ?_⟩
    · have h2 := congrArg List.reverse hk
      rw [List.reverse_reverse] at h2
      rw [h2]
      simp [List.reverse_append, List.reverse_replicate]
    · rw [List.getLast?_reverse]
      exact hd0
    · show String.mk (jsTrimZeros l) = _
      unfold jsTrimZeros trimRevZeros
      rw [if_pos hrhead, hD]
      rw [List.getLast?_reverse]
      by_cases hdot : d.head? = some '.'
      · obtain ⟨rest, hrest⟩ : ∃ rest, d = '.' :: rest := by
          cases hd2 : d with
          | nil =>
            rw [hd2] at hdot
            simp at hdot
          | cons a t =>
            rw [hd2] at hdot
            simp only [List.head?_cons, Option.some.injEq] at hdot
            exact ⟨t, by rw [hdot]⟩
        rw [if_pos hdot, hrest]
        unfold dropDotHead
        rw [if_pos (show ('.' :: rest).head? = some '.' from rfl)]
        show String.mk rest.reverse = String.mk ((('.' :: rest).reverse).dropLast)
        rw [show ('.' :: rest).reverse = rest.reverse ++ ['.'] by simp]
        rw [List.dropLast_concat]
      · rw [if_neg hdot, dropDotHead_of_head_ne d hdot]

set_option maxRecDepth 100000 in
/-- C5 counterexample: trimTrailingZeros is not idempotent — 10.00 trims to 10, which trims
again to 1; and the combined property with toBaseDenomination fails at the
amount 0, whose rendering 0 trims to the empty string. -/
theorem trimDecimals_not_idempotent :
    trimDecimals "10.00" = "10" ∧ trimDecimals (trimDecimals "10.00") = "1" ∧
      trimDecimals (trimDecimals "10.00") ≠ trimDecimals "10.00" ∧
      formatEthFromWei 0 = "0" ∧ trimDecimals (formatEthFromWei 0) = "" ∧
      trimDecimals (formatEthFromWei 0) ≠ formatEthFromWei 0 := by
  decide

/-- C5 (amended): trimTrailingZeros is idempotent exactly on the
strings whose first application's result does not end in the digit 0 — in
particular on every dot-free string — and toBaseDenomination output is a
fixed point of the trimmer whenever it does not end in 0; its output never
carries a trailing zero after a surviving decimal point. -/
theorem trimDecimals_idempotence_cases :
    (∀ s : String, (trimDecimals s).data.getLast? ≠ some '0' →
      trimDecimals (trimDecimals s) = trimDecimals s) ∧
    (∀ s : String, '.' ∉ s.data → trimDecimals (trimDecimals s) = trimDecimals s) ∧
    (∀ a : ℕ, (formatEthFromWei a).data.getLast? ≠ some '0' →
      trimDecimals (formatEthFromWei a) = formatEthFromWei a) ∧
    (∀ a : ℕ, '.' ∈ (formatEthFromWei a).data →
      (formatEthFromWei a).data.getLast? ≠ some '0') := by
  refine ⟨?_, ?_, ?_, ?_⟩
  · intro s h
    exact trimDecimals_of_getLast_ne _ h
  · intro s h
    exact trimDecimals_of_getLast_ne _ (trimDecimals_getLast_of_no_dot s h)
  · intro a h
    exact trimDecimals_of_getLast_ne _ h
  · intro a h
    cases hd : doubleOfNatFrac a (10 ^ 18) with
    | none =>
      rw [formatEth_eq_inf a hd] at h ⊢
      exact absurd h (by decide)
    | some p =>
      by_cases h1 : dGeNat p.1 p.2 1 = true
      · by_cases h2 : dGeNat p.1 p.2 (10 ^ 21) = true
        · rw [formatEth_eq_big a p hd h1 h2] at h ⊢
          exact jsTrim_count_dot _ (toStringBig_count_dot p.1 p.2) h
        · rw [Bool.not_eq_true] at h2
          rw [formatEth_eq_six_hi a p hd h1 h2] at h ⊢
          exact jsTrim_count_dot _ (toFixed_count_dot 6 _) h
      · rw [Bool.not_eq_true] at h1
        by_cases h2 : dGe p.1 p.2 dbl001.1 dbl001.2 = true
        · rw [formatEth_eq_six_lo a p hd h1 h2] at h ⊢
          exact jsTrim_count_dot _ (toFixed_count_dot 6 _) h
        · rw [Bool.not_eq_true] at h2
          rw [formatEth_eq_nine a p hd h1 h2] at h ⊢
          exact jsTrim_count_dot _ (toFixed_count_dot 9 _) h

set_option maxRecDepth 100000 in
/-- C6 counterexample: at or above the double magnitude 1e21 the source's
toFixed(6) no longer renders a decimal numeral with up to 6 fractional
digits: it falls back to the exponential Number::toString — 10 ^ 39 wei
renders as 1e+21 — and the trailing-zero replace then even corrupts the
exponent: 10 ^ 48 wei renders as 1e+3, because the replace strips the
final zero of 1e+30. -/
theorem formatEthFromWei_exponential_fallback :
    formatEthFromWei (10 ^ 39) = "1e+21" ∧ 'e' ∈ (formatEthFromWei (10 ^ 39)).data ∧
      formatEthFromWei (10 ^ 48) = "1e+3" := by
  refine ⟨by decide, by decide, by decide⟩

set_option maxRecDepth 100000 in
/-- C6 (amended): toBaseDenomination parses wei / 10 ^ 18 into the nearest
IEEE-754 double num; when num is at least 1 but below 1e21, and equally
when num is below 1 but at least the double 0.001, it renders num rounded
half-up to 6 decimal places with trailing fractional zeros and a bare dot
trimmed (the specification's canonical rendering of the double's value);
below 0.001 it renders 9 decimal places the same way; from 1e21 on the
rendering is exponential instead.  The two prescribed samples hold:
10 ^ 18 gives 1 and 10 ^ 17 gives 0.1. -/
theorem formatEthFromWei_tiers :
    (∀ (wei : ℕ) (p : ℕ × ℤ), doubleOfNatFrac wei (10 ^ 18) = some p →
      dGeNat p.1 p.2 1 = true → dGeNat p.1 p.2 (10 ^ 21) = false →
      formatEthFromWei wei = canonicalFixed 6 (toFixedScaledD 6 p.1 p.2)) ∧
    (∀ (wei : ℕ) (p : ℕ × ℤ), doubleOfNatFrac wei (10 ^ 18) = some p →
      dGeNat p.1 p.2 1 = false → dGe p.1 p.2 dbl001.1 dbl001.2 = true →
      formatEthFromWei wei = canonicalFixed 6 (toFixedScaledD 6 p.1 p.2)) ∧
    (∀ (wei : ℕ) (p : ℕ × ℤ), doubleOfNatFrac wei (10 ^ 18) = some p →
      dGeNat p.1 p.2 1 = false → dGe p.1 p.2 dbl001.1 dbl001.2 = false →
      formatEthFromWei wei = canonicalFixed 9 (toFixedScaledD 9 p.1 p.2)) ∧
    formatEthFromWei (10 ^ 18) = "1" ∧
    formatEthFromWei (10 ^ 17) = "0.1" := by
  refine ⟨?_, ?_, ?_, by decide, by decide⟩
  · intro wei p hd h1 h2
    rw [formatEth_eq_six_hi wei p hd h1 h2]
    exact congrArg String.mk (jsTrim_toFixed 6 _ (by norm_num))
  · intro wei p hd h1 h2
    rw [formatEth_eq_six_lo wei p hd h1 h2]
    exact congrArg String.mk (jsTrim_toFixed 6 _ (by norm_num))
  · intro wei p hd h1 h2
    rw [formatEth_eq_nine wei p hd h1 h2]
    exact congrArg String.mk (jsTrim_toFixed 9 _ (by norm_num))

set_option maxRecDepth 100000 in
/-- C7 counterexample: at or above the double magnitude 1e21 the integer
tier's toFixed(0) falls back to the exponential Number::toString, which can
carry fractional digits: 15 * 10 ^ 29 wei (1.5e21 gwei) renders as 1.5e+21
— not a 0-decimal-place rendering. -/
theorem formatGweiFromWei_exponential_fractional :
    formatGweiFromWei (15 * 10 ^ 29) = "1.5e+21" ∧
      '.' ∈ (formatGweiFromWei (15 * 10 ^ 29)).data := by
  refine ⟨by decide, by decide⟩

set_option maxRecDepth 100000 in
/-- C7 (amended): toIntermediateDenomination parses wei / 10 ^ 9 into the
nearest IEEE-754 double num; at num ≥ 1000 but below 1e21 it renders num
rounded half-up to 0 decimal places — a dot-free digit string, on which
the prescribed trailing-zero stripping (zeros adjacent to a decimal point)
is vacuous; at num ≥ 1 it renders up to 3 and below that up to 6 decimal
places, trailing fractional zeros and a bare dot trimmed (the canonical
rendering of the double's value); from 1e21 on the rendering is
exponential instead.  The two prescribed samples hold: 10 ^ 9 gives 1 and
15 * 10 ^ 8 gives 1.5. -/
theorem formatGweiFromWei_tiers :
    (∀ (wei : ℕ) (p : ℕ × ℤ), doubleOfNatFrac wei (10 ^ 9) = some p →
      dGeNat p.1 p.2 1000 = true → dGeNat p.1 p.2 (10 ^ 21) = false →
      formatGweiFromWei wei = canonicalFixed 0 (toFixedScaledD 0 p.1 p.2) ∧
        '.' ∉ (formatGweiFromWei wei).data) ∧
    (∀ (wei : ℕ) (p : ℕ × ℤ), doubleOfNatFrac wei (10 ^ 9) = some p →
      dGeNat p.1 p.2 1000 = false → dGeNat p.1 p.2 1 = true →
      formatGweiFromWei wei = canonicalFixed 3 (toFixedScaledD 3 p.1 p.2)) ∧
    (∀ (wei : ℕ) (p : ℕ × ℤ), doubleOfNatFrac wei (10 ^ 9) = some p →
      dGeNat p.1 p.2 1000 = false → dGeNat p.1 p.2 1 = false →
      formatGweiFromWei wei = canonicalFixed 6 (toFixedScaledD 6 p.1 p.2)) ∧
    formatGweiFromWei (10 ^ 9) = "1" ∧
    formatGweiFromWei (15 * 10 ^ 8) = "1.5" := by
  refine ⟨?_, ?_, ?_, by decide, by decide⟩
  · intro wei p hd h1 h2
    have heq := formatGwei_eq_tier0 wei p hd h1 h2
    refine ⟨by rw [heq]; rfl, ?_⟩
    rw [heq]
    intro hmem
    exact natDigits_ne_dot _ '.' hmem rfl
  · intro wei p hd h1 h2
    rw [formatGwei_eq_tier3 wei p hd h1 h2]
    exact congrArg String.mk (jsTrim_toFixed 3 _ (by norm_num))
  · intro wei p hd h1 h2
    rw [formatGwei_eq_tier6 wei p hd h1 h2]
    exact congrArg String.mk (jsTrim_toFixed 6 _ (by norm_num))

/-- A finite JavaScript number is accepted by the positivity check exactly
when its rational value is strictly positive. -/
lemma isPosJsNum_iff (m : JsNum) :
    isPosJsNum m = true ↔ ∃ q : ℚ, jsNumVal m = some q ∧ 0 < q := by
  cases m with
  | nan => simp [isPosJsNum, jsNumVal]
  | inf b => simp [isPosJsNum, jsNumVal]
  | fin n d =>
    have hpos : (0 : ℚ) < 10 ^ d := by positivity
    simp only [isPosJsNum, jsNumVal, decide_eq_true_eq, Option.some.injEq]
    constructor
    · intro hn
      exact ⟨(n : ℚ) / 10 ^ d, rfl, div_pos (by exact_mod_cast hn) hpos⟩
    · rintro ⟨q, rfl, hq⟩
      rcases div_pos_iff.mp hq with ⟨hn, _⟩ | ⟨_, hneg⟩
      · exact_mod_cast hn
      · exact absurd hpos (not_lt.mpr (le_of_lt hneg))

set_option maxRecDepth 100000 in
/-- C8: isPositiveNumber accepts string or numeric input and returns true
exactly when the value parses (with parseFloat semantics, rounding to the
nearest double with overflow to Infinity and underflow to zero) as a
finite number strictly greater than zero; the empty string, non-numeric
text, zero and negative values return false, input that is neither a
string nor a number returns false, and so do 1e400 (Infinity, rejected by
isFinite) and 1e-400 (underflows to zero). -/
theorem isPositiveNumber_spec :
    (∀ s : String, isPositiveNumber (JsValue.str s) = true ↔
      ∃ q : ℚ, jsNumVal (parseFloat s) = some q ∧ 0 < q) ∧
    (∀ n : JsNum, isPositiveNumber (JsValue.num n) = true ↔
      ∃ q : ℚ, jsNumVal n = some q ∧ 0 < q) ∧
    isPositiveNumber JsValue.other = false ∧
    isPositiveNumber (JsValue.str "0.1") = true ∧
    isPositiveNumber (JsValue.str "1.5") = true ∧
    isPositiveNumber (JsValue.str "-1") = false ∧
    isPositiveNumber (JsValue.str "abc") = false ∧
    isPositiveNumber (JsValue.str "") = false ∧
    isPositiveNumber (JsValue.str "0") = false ∧
    isPositiveNumber (JsValue.str "1e400") = false ∧
    isPositiveNumber (JsValue.str "1e-400") = false := by
  refine ⟨?_, ?_, rfl, by decide, by decide, by decide, by decide, by decide, by decide,
    by decide, by decide⟩
  · intro s
    exact isPosJsNum_iff (parseFloat s)
  · intro n
    exact isPosJsNum_iff n

/-- addressBody succeeds exactly on lists with the 0x prefix. -/
lemma addressBody_eq_some (l body : List Char) :
    addressBody l = some body ↔ l = '0' :: 'x' :: body := by
  constructor
  · intro h
    unfold addressBody at h
    split at h
    · simp only [Option.some.injEq] at h
      rw [← h]
    · exact absurd h (by simp)
  · intro h
    rw [h]
    rfl

/-- C9 (spec-modelled): the address validator accepts exactly the strings
of 42 characters formed by the 0x prefix and 40 hexadecimal digits whose
mixed-case bodies match the abstract checksum casing, rejects every
non-string value, and behaves as prescribed on the specification's sample
inputs, for every choice of the checksum derivation. -/
theorem isValidAddress_spec :
    ∀ checksum : String → String,
      (∀ s : String, isValidAddress checksum (JsValue.str s) = true ↔
        ∃ body : List Char, s.data = '0' :: 'x' :: body ∧ body.length = 40 ∧
          (∀ c ∈ body, isHexChar c = true) ∧
          (body.any isLowerHexLetter = true → body.any isUpperHexLetter = true →
            body = (checksum (String.mk (body.map Char.toLower))).data)) ∧
      (∀ n : JsNum, isValidAddress checksum (JsValue.num n) = false) ∧
      isValidAddress checksum JsValue.other = false ∧
      isValidAddress checksum
        (JsValue.str "0x000000000000000000000000000000000000dead") = true ∧
      isValidAddress checksum (JsValue.str "0x123") = false ∧
      isValidAddress checksum
        (JsValue.str "0xGGGGGGGGGGGGGGGGGGGGGGGGGGGGGGGGGGGGGGGG") = false ∧
      isValidAddress checksum
        (JsValue.str "742d35cc6634c0532925a3b8d4c9db96c4b5da5e") = false ∧
      isValidAddress checksum (JsValue.str "") = false ∧
      isValidAddress checksum JsValue.other = false := by
  intro checksum
  refine ⟨?_, fun n => rfl, rfl, rfl, rfl, rfl, rfl, rfl, rfl⟩
  intro s
  show ethersIsAddress checksum s = true ↔ _
  unfold ethersIsAddress
  cases hab : addressBody s.data with
  | none =>
    constructor
    · intro h
      exact absurd h (by simp)
    · rintro ⟨body, hdata, -, -, -⟩
      rw [(addressBody_eq_some s.data body).mpr hdata] at hab
      exact absurd hab (by simp)
  | some body =>
    have hdata : s.data = '0' :: 'x' :: body := (addressBody_eq_some _ _).mp hab
    simp only [Bool.and_eq_true, Bool.or_eq_true, Bool.not_eq_true', decide_eq_true_eq,
      List.all_eq_true, Bool.and_eq_false_iff]
    constructor
    · rintro ⟨⟨hlen, hhex⟩, hcase⟩
      refine ⟨body, hdata, hlen, hhex, ?_⟩
      intro hl hu
      rcases hcase with hfalse | hck
      · rcases hfalse with hfl | hfu
        · rw [hl] at hfl
          exact absurd hfl (by simp)
        · rw [hu] at hfu
          exact absurd hfu (by simp)
      · exact hck
    · rintro ⟨body2, hdata2, hlen, hhex, hck⟩
      have hb : body2 = body := by
        rw [hdata] at hdata2
        simpa using hdata2.symm
      subst hb
      refine ⟨⟨hlen, hhex⟩, ?_⟩
      by_cases hl : body2.any isLowerHexLetter = true
      · by_cases hu : body2.any isUpperHexLetter = true
        · exact Or.inr (hck hl hu)
        · exact Or.inl (Or.inr (by simpa using hu))
      · exact Or.inl (Or.inl (by simpa using hl))

/-- Every successful run of the estimation body is built in the final
branch from the awaited remote values: totalWei is the exact BigInt
product of the remote gas limit and the selected gas price, and gasUnits
is Number() of that gas limit. -/
lemma estimateBody_ok_inv (env : RpcEnv) (a v : String) (r : EstimationResult)
    (h : estimateBody env a v = Except.ok r) :
    ∃ g : ℕ, env.estimateGas = Except.ok g ∧ r.gasUnits = jsNumberOfNat g ∧
      r.totalWei = g * r.gasPriceWei := by
  unfold estimateBody at h
  repeat' split at h
  all_goals try exact Except.noConfusion h
  have h2 := Except.ok.inj h
  subst h2
  refine ⟨_, ?_, rfl, rfl⟩
  simp_all

/-- The catch wrapper preserves success verbatim, so the invariant lifts to
estimateEthTransfer. -/
lemma estimateEthTransfer_ok_inv (env : RpcEnv) (a v : String) (r : EstimationResult)
    (h : estimateEthTransfer env a v = Except.ok r) :
    ∃ g : ℕ, env.estimateGas = Except.ok g ∧ r.gasUnits = jsNumberOfNat g ∧
      r.totalWei = g * r.gasPriceWei := by
  unfold estimateEthTransfer at h
  split at h
  · rename_i r2 heq
    injection h with h2
    subst h2
    exact estimateBody_ok_inv env a v r2 heq
  · exact absurd h (by simp)

set_option maxRecDepth 100000 in
/-- C3 counterexample: the total-cost identity fails once the gas limit is
not exactly double-representable: with the remote estimate 2 ^ 53 + 1 at a
1 wei gas price, totalWei is the exact product 2 ^ 53 + 1 but gasUnits is
Number(2 ^ 53 + 1) = 2 ^ 53, and gasUnits times gasPriceWei is 2 ^ 53 ≠
totalWei. -/
theorem estimation_total_rounding_counterexample :
    ∃ r : EstimationResult, estimateEthTransfer wEnvBig wAddr "0.1" = Except.ok r ∧
      r.gasUnits = JsNum.fin (2 ^ 53) 0 ∧ r.gasPriceWei = 1 ∧
      r.totalWei = 2 ^ 53 + 1 ∧ 2 ^ 53 * r.gasPriceWei ≠ r.totalWei := by
  refine ⟨_, rfl, by decide, by decide, by decide, by decide⟩

/-- C3 (amended): totalWei is always the exact BigInt product of the
remote gas limit and the gas price, with no rounding; gasUnits, however,
is Number(gasLimit), the double nearest the gas limit, which is the gas
limit itself exactly when it lies below 2 ^ 53 — so for every result whose
remote gas limit is below 2 ^ 53 (every realistic case) the claimed
identity totalWei = gasUnits * gasPriceWei holds exactly in integer
arithmetic. -/
theorem estimation_total_exact :
    (∀ (env : RpcEnv) (toAddr valueEth : String) (r : EstimationResult),
      estimateEthTransfer env toAddr valueEth = Except.ok r →
      ∃ g : ℕ, env.estimateGas = Except.ok g ∧ r.gasUnits = jsNumberOfNat g ∧
        r.totalWei = g * r.gasPriceWei) ∧
    (∀ g : ℕ, g < 2 ^ 53 → jsNumberOfNat g = JsNum.fin g 0) ∧
    (∀ (env : RpcEnv) (toAddr valueEth : String) (r : EstimationResult) (g : ℕ),
      estimateEthTransfer env toAddr valueEth = Except.ok r →
      env.estimateGas = Except.ok g → g < 2 ^ 53 →
      ∃ n : ℕ, r.gasUnits = JsNum.fin n 0 ∧ r.totalWei = n * r.gasPriceWei) := by
  refine ⟨fun env a v r h => estimateEthTransfer_ok_inv env a v r h,
    jsNumberOfNat_small, ?_⟩
  intro env a v r g h hg hlt
  obtain ⟨g2, hg2, hu, ht⟩ := estimateEthTransfer_ok_inv env a v r h
  rw [hg] at hg2
  have hgg : g = g2 := Except.ok.inj hg2
  subst hgg
  exact ⟨g, by rw [hu, jsNumberOfNat_small g hlt], ht⟩

/-- C2: contrary to the documented 21000-unit fallback, a failing remote
gas-estimate call makes the whole estimation fail — the call never returns
a result at all in that case, and every returned result carries as its
gasUnits the Number conversion of exactly the gas-unit count the remote
call produced. -/
theorem estimateGas_failure_propagates :
    (∀ (env : RpcEnv) (toAddr valueEth : String) (e : JsError),
      env.estimateGas = Except.error e →
      ∃ e2 : JsError, estimateEthTransfer env toAddr valueEth = Except.error e2) ∧
    (∀ (env : RpcEnv) (toAddr valueEth : String) (r : EstimationResult),
      estimateEthTransfer env toAddr valueEth = Except.ok r →
      ∃ g : ℕ, env.estimateGas = Except.ok g ∧ r.gasUnits = jsNumberOfNat g) := by
  constructor
  · intro env toAddr valueEth e he
    cases hr : estimateEthTransfer env toAddr valueEth with
    | error e2 => exact ⟨e2, rfl⟩
    | ok r =>
      obtain ⟨g, hg, -, -⟩ := estimateEthTransfer_ok_inv env toAddr valueEth r hr
      rw [he] at hg
      exact absurd hg (by simp)
  · intro env toAddr valueEth r h
    obtain ⟨g, hg, hu, -⟩ := estimateEthTransfer_ok_inv env toAddr valueEth r h
    exact ⟨g, hg, hu⟩

/-- C2 witness: with fee data present but the gas-estimate call rejecting,
the estimation returns an error — no 21000-unit result is produced. -/
theorem estimateGas_failure_propagates_witness :
    ∃ e2 : JsError, estimateEthTransfer wEnvFail wAddr "0.1" = Except.error e2 :=
  estimateGas_failure_propagates.1 wEnvFail wAddr "0.1" ⟨"missing from context", none⟩ rfl

/-- C1: contrary to the documented partial-success policy, a price-fetch
failure in a transfer run whose fee estimation succeeds is fatal: the
dispatcher prints only the error line to stderr, prints nothing to stdout
(no ETH-denominated line, no N/A sentinel), and exits with code 1. -/
theorem handleTransfer_price_failure_fatal
    (checksum : String → String) (opts : TransferOptions) (env : RpcEnv)
    (e : JsError) (r : EstimationResult)
    (h1 : isValidAddress checksum (JsValue.str opts.toAddr) = true)
    (h2 : isPositiveNumber (JsValue.str opts.value) = true)
    (h3 : opts.network = "base" ∨ opts.network = "base-sepolia")
    (h4 : estimateEthTransfer env opts.toAddr opts.value = Except.ok r) :
    handleTransfer checksum opts (Except.error e) env =
      { stdoutLines := [], stderrLines := ["Error: " ++ e.message], exitCode := 1 } := by
  have hnet : validNetworks.contains opts.network = true := by
    rcases h3 with h | h <;> simp [validNetworks, h]
  unfold handleTransfer
  rw [h1, h2, hnet]
  simp only [Bool.true_eq_false, if_false]
  rw [h4]
  rfl

set_option maxRecDepth 100000 in
/-- C1 witness: a concrete transfer with valid inputs, a succeeding
estimation environment and a timed-out price fetch ends with exit code 1
and an empty stdout. -/
theorem handleTransfer_price_failure_fatal_witness :
    handleTransfer idChecksum wOpts (Except.error wPriceErr) wEnvOk =
      { stdoutLines := [], stderrLines := ["Error: " ++ wPriceErr.message], exitCode := 1 } :=
  handleTransfer_price_failure_fatal idChecksum wOpts wEnvOk wPriceErr wResult
    (by rfl) (by rfl) (Or.inl rfl) (by rfl)
